import Mathlib

/-!
Verification development for the django-cli-query management command
(src/cli_query/management/commands/query.py).

Python strings are modelled as lists of characters (`PyStr`), Python
exceptions (CommandError and uncaught errors, all terminal) as the error
side of `Except`, and the side effects of `Command.handle` as an explicit
trace of events.  The external ORM and template engine, which the tool
only delegates to, are abstracted as an environment `Env` of opaque
functions, and querysets are kept symbolic (`QS`) so that the structure
the tool builds (filter, distinct, order_by) is visible to theorems.
-/

set_option autoImplicit false

namespace CliQuery

/-- Python strings, modelled as lists of characters. -/
abbrev PyStr := List Char

/-- Embed a Lean string literal as a `PyStr`. -/
def str (s : String) : PyStr := s.toList

/-- Python membership test `c in x` for a character in a string. -/
def hasChar (c : Char) : PyStr → Bool
  | [] => false
  | x :: xs => x = c || hasChar c xs

/-- Python `x.split(sep, 1)` for a one-character separator: the part
before the first occurrence of the separator and the part after it.
When the separator does not occur the whole string is the first part. -/
def splitFirst (c : Char) : PyStr → PyStr × PyStr
  | [] => ([], [])
  | x :: xs =>
    if x = c then ([], xs)
    else
      let p := splitFirst c xs
      (x :: p.1, p.2)

/-- Python `x.split(sep)` for a one-character separator. -/
def splitAll (c : Char) : PyStr → List PyStr
  | [] => [[]]
  | x :: xs =>
    if x = c then [] :: splitAll c xs
    else
      match splitAll c xs with
      | h :: t => (x :: h) :: t
      | [] => [[x]]

/-- Python `sep.join(parts)`. -/
def joinWith (sep : PyStr) : List PyStr → PyStr
  | [] => []
  | [x] => x
  | x :: y :: t => x ++ sep ++ joinWith sep (y :: t)

/-- Python `s.startswith(pat)`. -/
def startswith (s pat : PyStr) : Bool := decide (s.take pat.length = pat)

/-- Python `s.endswith(pat)`. -/
def endswith (s pat : PyStr) : Bool := decide (s.drop (s.length - pat.length) = pat)

/-- Python `s.lower()` (restricted to the ASCII lowering relevant here). -/
def lowerStr (s : PyStr) : PyStr := s.map Char.toLower

/-- Python `' ' * n`. -/
def spacesN (n : Nat) : PyStr := List.replicate n ' '

/-- Lexicographic comparison of strings, used to model Python `sorted`. -/
def lexLe : PyStr → PyStr → Bool
  | [], _ => true
  | _ :: _, [] => false
  | x :: xs, y :: ys => decide (x < y) || (decide (x = y) && lexLe xs ys)

/-- Insert a string into a sorted list of strings. -/
def insertSorted (x : PyStr) : List PyStr → List PyStr
  | [] => [x]
  | y :: ys => if lexLe x y then x :: y :: ys else y :: insertSorted x ys

/-- Python `sorted` on a list of strings (insertion sort). -/
def sortStrs : List PyStr → List PyStr
  | [] => []
  | x :: xs => insertSorted x (sortStrs xs)

/-- First-match association-list lookup (Python attribute/dict lookup). -/
def lookupA {α : Type} : List (PyStr × α) → PyStr → Option α
  | [], _ => none
  | (k, v) :: rest, key => if k = key then some v else lookupA rest key

/-- Python `s in xs` for a string in a list of strings. -/
def elemStr (xs : List PyStr) (s : PyStr) : Bool := xs.any (fun x => decide (x = s))

/-- Python `max` on a list of naturals: `none` when the list is empty
(where Python raises `ValueError: max() arg is an empty sequence`). -/
def maxNat? : List Nat → Option Nat
  | [] => none
  | x :: xs => some (xs.foldl Nat.max x)

deriving instance DecidableEq for Except

/-! ### Filter predicates (`make_filter`) -/

/-- The value carried by a query predicate: a plain string, or the list
of strings produced by the `__in` comma split. -/
inductive QVal : Type where
  | s : PyStr → QVal
  | list : List PyStr → QVal
  deriving DecidableEq

/-- A Django `Q` object as built by `make_filter`: a keyword predicate
`Q(**{key: value})` or its negation `~Q(...)`. -/
inductive QPred : Type where
  | q : PyStr → QVal → QPred
  | qnot : QPred → QPred
  deriving DecidableEq

/-- The `__in` key suffix. -/
def inSuffix : PyStr := str "__in"

/-- One iteration of the loop body of `make_filter` in query.py: an empty
token contributes nothing (`ok none`), a token without an equals sign
raises `CommandError("Invalid filter: %s" % x)`, and otherwise the token
is split at the first equals sign, the value is comma-split when the full
key ends in `__in`, and a leading exclamation mark or tilde on the key
turns the predicate into its negation built on the key without that
first character. -/
def parseToken (x : PyStr) : Except PyStr (Option QPred) :=
  if x = [] then .ok none
  else if hasChar '=' x = false then .error (str "Invalid filter: " ++ x)
  else
    let kv := splitFirst '=' x
    let val : QVal := if endswith kv.1 inSuffix then .list (splitAll ',' kv.2) else .s kv.2
    if startswith kv.1 (str "!") || startswith kv.1 (str "~") then
      .ok (some (.qnot (.q (kv.1.drop 1) val)))
    else
      .ok (some (.q kv.1 val))

/-- `make_filter(args)` from query.py: fold `parseToken` over the
positional arguments, keeping order and stopping at the first error. -/
def make_filter : List PyStr → Except PyStr (List QPred)
  | [] => .ok []
  | x :: xs =>
    match parseToken x with
    | .error e => .error e
    | .ok none => make_filter xs
    | .ok (some p) =>
      match make_filter xs with
      | .error e => .error e
      | .ok ps => .ok (p :: ps)

/-- The predicate a non-negated `key=value` token denotes, in the words
of the specification: a multi-value predicate on the comma-split value
when the key ends in `__in`, an equality predicate otherwise.  This is
the building block the negation clause of claim C1 refers to. -/
def basePred (k v : PyStr) : QPred :=
  if endswith k inSuffix then .q k (.list (splitAll ',' v)) else .q k (.s v)

/-! ### Records and dotted attribute resolution (`getattr_r`) -/

/-- A Python object as seen by the tool: its `str()` representation and
its named attributes (which may themselves be objects, modelling related
records).  `dir(obj)` is modelled as the list of attribute names. -/
inductive Obj : Type where
  | mk : PyStr → List (PyStr × Obj) → Obj

/-- Python `str(obj)` / `unicode(obj)`. -/
def strOf : Obj → PyStr
  | .mk r _ => r

/-- The attribute list of an object. -/
def attrsOf : Obj → List (PyStr × Obj)
  | .mk _ a => a

/-- Python `dir(obj)`: the attribute names. -/
def dirOf (o : Obj) : List PyStr := (attrsOf o).map Prod.fst

/-- Python `getattr(obj, name)`, `none` where Python raises
`AttributeError`. -/
def getAttr (o : Obj) (name : PyStr) : Option Obj := lookupA (attrsOf o) name

/-- The `CommandError` message built by `getattr_r` when an attribute is
missing: the text of the `AttributeError` (whose exact Python wording is
abstracted here) followed by the sorted, non-underscore attribute names
of the object at the failing hop, comma-joined, as in
`"%s. Choices are: %s"` in query.py. -/
def attrError (o : Obj) : PyStr :=
  str ". Choices are: " ++
    joinWith (str ", ") (sortStrs ((dirOf o).filter (fun a => !startswith a (str "_"))))

/-- Structural engine of `getattr_r`: walk the attribute path character
by character, accumulating the current component (in reverse) and
descending one object at each dot.  Splitting a dotted path at its first
dot and recursing on the remainder, as query.py does, consumes the path
in exactly this way; theorem `c5_getattr_r_recursion` below proves the
split-at-first-dot equations of the source. -/
def getattrWalk : Obj → PyStr → PyStr → Except PyStr Obj
  | obj, acc, [] =>
    match getAttr obj acc.reverse with
    | some v => .ok v
    | none => .error (attrError obj)
  | obj, acc, c :: rest =>
    if c = '.' then
      match getAttr obj acc.reverse with
      | some o => getattrWalk o [] rest
      | none => .error (attrError obj)
    else getattrWalk obj (c :: acc) rest

/-- `getattr_r(obj, attr)` from query.py: resolve a dotted attribute
path; a missing attribute at any hop yields a `CommandError` listing the
sorted non-underscore attributes of the object at that hop, and an error
raised deeper in the recursion propagates unchanged. -/
def getattr_r (obj : Obj) (attr : PyStr) : Except PyStr Obj :=
  getattrWalk obj [] attr

/-! ### The command environment and `Command.handle` -/

/-- A symbolic Django queryset, recording the operations the tool
applies: `model.objects`, `.filter(*qargs)`, `.distinct()` and
`.order_by(field)`.  Evaluation is delegated to the environment. -/
inductive QS : Type where
  | objects : PyStr → QS
  | filter : QS → List QPred → QS
  | distinct : QS → QS
  | order_by : QS → PyStr → QS
  deriving DecidableEq

/-- An observable effect of `Command.handle`: a line written to stdout,
a successful application import, an iteration of a queryset (a database
query), the confirmation prompt, a bulk `queryset.update(**updates)`
call, and entry into each of the three rendering paths (inline template,
template file, delimited fields). -/
inductive Eff : Type where
  | imported : PyStr → Eff
  | wrote : PyStr → Eff
  | queryEval : QS → Eff
  | prompted : Eff
  | updateCall : QS → List (PyStr × PyStr) → Eff
  | renderedInline : QS → Eff
  | renderedFile : QS → Eff
  | fieldsOut : QS → Eff
  deriving DecidableEq

/-- The metadata of a Django model that query.py consults:
`_meta.get_all_field_names()`, the names of direct fields from
`_meta.get_fields_with_model()`, and `_meta.get_field_by_name`, which
is modelled as a name-to-choice-values map over every resolvable field
(reverse relations included), `_meta` raising `FieldDoesNotExist` on a
name outside it. -/
structure MModel : Type where
  name : PyStr
  allFieldNames : List PyStr
  directNames : List PyStr
  fieldsByName : List (PyStr × List PyStr)

/-- The outcome of `django.template.loader.get_template`. -/
inductive LoadErr : Type where
  | notFound : LoadErr
  | syn : PyStr → LoadErr
  deriving DecidableEq

/-- The external world of the command: `settings.INSTALLED_APPS`, the
loadable application modules with their models, the ORM (a hook for
`FieldError` at filter construction and an evaluator turning a symbolic
queryset into records), the user reply to `raw_input`, and the template
engine (syntax checking, stdin, the file system, the loader, and
rendering). -/
structure Env : Type where
  installed : List PyStr
  apps : List (PyStr × List MModel)
  fieldErr : List QPred → Option PyStr
  eval : QS → List Obj
  response : PyStr
  tmplErr : PyStr → Option PyStr
  stdinText : PyStr
  fileExists : PyStr → Bool
  fileContents : PyStr → PyStr
  loadTemplate : PyStr → Except LoadErr PyStr
  render : PyStr → QS → PyStr

/-- The parsed command-line options of query.py, with optparse defaults:
`None` for application, model, fields, order and template_file, the
empty string for template, `","` for separator, the empty list for
updates and false for list_fields. -/
structure Options : Type where
  application : Option PyStr
  model : Option PyStr
  fields : Option PyStr
  list_fields : Bool
  order : Option PyStr
  separator : PyStr
  template : PyStr
  template_file : Option PyStr
  updates : List PyStr

/-- Python truthiness of a string option: false for `None` and for the
empty string. -/
def optTruthy : Option PyStr → Bool
  | none => false
  | some s => !s.isEmpty

/-- The value of a string option (meaningful when truthy). -/
def optVal (o : Option PyStr) : PyStr := o.getD []

/-- The three required-option checks at the top of `Command.handle`, in
source order; `some` is the `CommandError` message of the first failing
check. -/
def requireOpts (opts : Options) : Option PyStr :=
  if optTruthy opts.application = false then
    some (str "You must specify which application to use")
  else if optTruthy opts.model = false then
    some (str "You must specify which model to use")
  else if optTruthy opts.fields = false && opts.template = [] &&
          optTruthy opts.template_file = false && opts.updates = [] then
    some (str "You must specify a list of fields, a template or a set of updates")
  else none

/-- Failure of application and model resolution, distinguishing errors
raised before the application module was imported from errors raised
after (the unknown-model error). -/
inductive ResolveErr : Type where
  | early : PyStr → ResolveErr
  | late : PyStr → PyStr → ResolveErr

/-- The application and model resolution section of `Command.handle`:
the `INSTALLED_APPS` membership check, the import, and the lookup of
the model name among the sorted `ModelBase` names of the module. -/
def resolveModel (env : Env) (opts : Options) : Except ResolveErr (PyStr × MModel) :=
  let app := optVal opts.application
  if elemStr env.installed app = false then
    .error (.early (str "Application " ++ app ++
      str " not found in INSTALLED_APPS. All applications: \n - " ++
      joinWith (str "\n - ") env.installed))
  else
    match lookupA env.apps app with
    | none => .error (.early (str "Application " ++ app ++ str " could not be imported"))
    | some mods =>
      let models_ := sortStrs (mods.map MModel.name)
      let mname := optVal opts.model
      if elemStr models_ mname = false then
        .error (.late app (str "Application " ++ app ++ str " has no " ++ mname ++
          str " model. Available models: \n - " ++ joinWith (str "\n - ") models_))
      else
        match mods.find? (fun m => decide (m.name = mname)) with
        | some model => .ok (app, model)
        | none => .error (.late app (str "model lookup failed"))

/-- The message of the `--list-fields` mode. -/
def listFieldsMsg (app mname : PyStr) (model : MModel) : PyStr :=
  str "Fields for " ++ app ++ str ".models." ++ mname ++ str ":\n - " ++
    joinWith (str "\n - ") model.allFieldNames

/-- The queryset `Command.handle` builds:
`model.objects.filter(*qargs).distinct()`, then `.order_by(...)` when an
order option is given. -/
def mkQS (opts : Options) (mname : PyStr) (qargs : List QPred) : QS :=
  let base := QS.distinct (QS.filter (QS.objects mname) qargs)
  if optTruthy opts.order then QS.order_by base (optVal opts.order) else base

/-- Overwrite-or-append of one key/value pair, modelling Python dict
construction where a later pair with the same key wins. -/
def setKey : List (PyStr × PyStr) → PyStr → PyStr → List (PyStr × PyStr)
  | [], k, v => [(k, v)]
  | (k0, v0) :: rest, k, v =>
    if k0 = k then (k0, v) :: rest else (k0, v0) :: setKey rest k v

/-- Python `dict(pairs)`. -/
def buildDict (pairs : List (PyStr × PyStr)) : List (PyStr × PyStr) :=
  pairs.foldl (fun d kv => setKey d kv.1 kv.2) []

/-- The update-validation loop of `Command.handle`: for each update key,
`get_field_by_name` must know the key (else the caught
`FieldDoesNotExist` becomes a `CommandError` listing the direct field
names), the key must be a direct field (same treatment), and when the
field enumerates choices the new value must be one of them (else an
uncaught `ValueError`).  The exact Django wording of the
`FieldDoesNotExist` text is abstracted as shown. -/
def validateUpdates (model : MModel) : List (PyStr × PyStr) → Except PyStr Unit
  | [] => .ok ()
  | (key, val) :: rest =>
    match lookupA model.fieldsByName key with
    | none =>
      .error (model.name ++ str " has no field named " ++ key ++
        str ". Choices are: " ++ joinWith (str ", ") model.directNames)
    | some choices =>
      if elemStr model.directNames key = false then
        .error (str "Field " ++ key ++ str " is not a direct field." ++
          str ". Choices are: " ++ joinWith (str ", ") model.directNames)
      else if !choices.isEmpty && elemStr choices val = false then
        .error (str "Invalid choice for " ++ key ++ str ": " ++ val ++
          str ". Valid choices: " ++ joinWith (str ", ") choices)
      else validateUpdates model rest

/-- The lengths `len(str(getattr(obj, key)))` of the update columns for
one record, an uncaught `AttributeError` where the attribute is
missing. -/
def keyLens (o : Obj) : List PyStr → Except PyStr (List Nat)
  | [] => .ok []
  | k :: ks =>
    match getAttr o k with
    | none => .error (str "AttributeError: " ++ k)
    | some v =>
      match keyLens o ks with
      | .error e => .error e
      | .ok t => .ok ((strOf v).length :: t)

/-- All column lengths over the queryset, record-major as in the Python
list comprehension computing `vallen`. -/
def attrLens (objs : List Obj) (keys : List PyStr) : Except PyStr (List Nat) :=
  match objs with
  | [] => .ok []
  | o :: os =>
    match keyLens o keys with
    | .error e => .error e
    | .ok l =>
      match attrLens os keys with
      | .error e => .error e
      | .ok t => .ok (l ++ t)

/-- The stdout writes of the per-record change preview: `str(obj)` and,
for each update key in sorted order, the padded key, the padded current
value and the proposed value. -/
def displayWrites (objs : List Obj) (updates : List (PyStr × PyStr))
    (keylen vallen : Nat) : List Eff :=
  objs.flatMap (fun obj =>
    Eff.wrote (strOf obj) ::
      (sortStrs (updates.map Prod.fst)).flatMap (fun key =>
        let v := ((getAttr obj key).map strOf).getD []
        [Eff.wrote (str "  " ++ key ++ spacesN (keylen - key.length)),
         Eff.wrote (v ++ spacesN (vallen - v.length)),
         Eff.wrote (str "=> " ++ (lookupA updates key).getD [] ++ str "\n")]))

/-- The `# Update` section of `Command.handle`: nothing when no update
options were given; otherwise the per-token equals-sign check, dict
construction, validation, the column-width computations (the `vallen`
one iterates the queryset and raises `ValueError` on an empty result),
the preview writes, the `raw_input` confirmation, and either the abort
write or the bulk update followed by the applied write.  Errors carry
the trace accumulated inside this section. -/
def updateSection (env : Env) (opts : Options) (model : MModel) (qs : QS) :
    Except (List Eff × PyStr) (List Eff) :=
  if opts.updates = [] then .ok []
  else
    match opts.updates.find? (fun u => hasChar '=' u = false) with
    | some u => .error ([], str "Invalid update statement: " ++ u)
    | none =>
      let updates := buildDict (opts.updates.map (splitFirst '='))
      match validateUpdates model updates with
      | .error e => .error ([], e)
      | .ok _ =>
        let keylen := ((updates.map (fun kv => kv.1.length)).foldl Nat.max 0) + 3
        let objs := env.eval qs
        match attrLens objs (updates.map Prod.fst) with
        | .error e => .error ([Eff.queryEval qs], e)
        | .ok lens =>
          match maxNat? lens with
          | none => .error ([Eff.queryEval qs], str "max() arg is an empty sequence")
          | some mx =>
            let dtr := displayWrites objs updates keylen (mx + 3)
            if lowerStr env.response = str "y" then
              .ok (Eff.queryEval qs :: dtr ++
                [Eff.prompted, Eff.updateCall qs updates, Eff.wrote (str "Applied!")])
            else
              .ok (Eff.queryEval qs :: dtr ++
                [Eff.prompted, Eff.wrote (str "Aborted")])

/-- The inline-template branch (`if options['template']:`): syntax check
then render. -/
def inlineTemplatePart (env : Env) (opts : Options) (qs : QS) :
    Except (List Eff × PyStr) (List Eff) :=
  if opts.template = [] then .ok []
  else
    match env.tmplErr opts.template with
    | some e => .error ([], str "Syntax error in template: " ++ e)
    | none => .ok [Eff.renderedInline qs, Eff.wrote (env.render opts.template qs)]

/-- One line of the delimited-fields output: the requested fields
resolved with `getattr_r` and joined with the separator. -/
def fieldLine (record : Obj) (fields : List PyStr) (sep : PyStr) : Except PyStr PyStr :=
  match fields.mapM (getattr_r record) with
  | .error e => .error e
  | .ok vs => .ok (joinWith sep (vs.map strOf))

/-- All lines of the delimited-fields output. -/
def fieldLines (objs : List Obj) (fields : List PyStr) (sep : PyStr) :
    Except PyStr (List PyStr) :=
  objs.mapM (fun o => fieldLine o fields sep)

/-- The `if options['template_file']: ... elif options['fields']:`
statement of the output section: the template-file branch reads from
stdin for `-` (where a syntax error is an uncaught exception), from the
file system when the path exists, and from the loader otherwise; only
when no template file is given does the delimited-fields branch run. -/
def filePart (env : Env) (opts : Options) (qs : QS) :
    Except (List Eff × PyStr) (List Eff) :=
  if optTruthy opts.template_file then
    let tf := optVal opts.template_file
    if tf = str "-" then
      match env.tmplErr env.stdinText with
      | some e => .error ([], str "TemplateSyntaxError: " ++ e)
      | none => .ok [Eff.renderedFile qs, Eff.wrote (env.render env.stdinText qs)]
    else if env.fileExists tf then
      match env.tmplErr (env.fileContents tf) with
      | some e => .error ([], str "Syntax error in template: " ++ e)
      | none => .ok [Eff.renderedFile qs, Eff.wrote (env.render (env.fileContents tf) qs)]
    else
      match env.loadTemplate tf with
      | .error .notFound => .error ([], str "Cannot find a template named " ++ tf)
      | .error (.syn e) => .error ([], str "Syntax error in template: " ++ e)
      | .ok src => .ok [Eff.renderedFile qs, Eff.wrote (env.render src qs)]
  else if optTruthy opts.fields then
    let fields := splitAll ',' (optVal opts.fields)
    match fieldLines (env.eval qs) fields opts.separator with
    | .error e => .error ([Eff.fieldsOut qs, Eff.queryEval qs], e)
    | .ok lines => .ok (Eff.fieldsOut qs :: Eff.queryEval qs :: lines.map Eff.wrote)
  else .ok []

/-- The `# Generate output` section: the inline-template `if` statement
followed by the separate template-file/fields `if`/`elif` statement. -/
def outputSection (env : Env) (opts : Options) (qs : QS) :
    Except (List Eff × PyStr) (List Eff) :=
  match inlineTemplatePart env opts qs with
  | .error (tr, e) => .error (tr, e)
  | .ok trI =>
    match filePart env opts qs with
    | .error (tr, e) => .error (trI ++ tr, e)
    | .ok trF => .ok (trI ++ trF)

/-- `Command.handle` of query.py: the required-option checks, the
application and model resolution, the `--list-fields` early return, the
filter parsing, the queryset construction (with the ORM `FieldError`
hook), the update section and the output section.  The result is the
trace of observable effects together with normal or erroneous
termination; every error is terminal, as in the source, where every
failure raises. -/
def handle (env : Env) (opts : Options) (args : List PyStr) :
    List Eff × Except PyStr Unit :=
  match requireOpts opts with
  | some e => ([], .error e)
  | none =>
    match resolveModel env opts with
    | .error (.early e) => ([], .error e)
    | .error (.late app e) => ([Eff.imported app], .error e)
    | .ok (app, model) =>
      if opts.list_fields then
        ([Eff.imported app,
          Eff.wrote (listFieldsMsg app (optVal opts.model) model)], .ok ())
      else
        match make_filter args with
        | .error e => ([Eff.imported app], .error e)
        | .ok qargs =>
          match env.fieldErr qargs with
          | some e => ([Eff.imported app], .error e)
          | none =>
            let qs := mkQS opts model.name qargs
            match updateSection env opts model qs with
            | .error (trU, e) => (Eff.imported app :: trU, .error e)
            | .ok trU =>
              match outputSection env opts qs with
              | .error (trO, e) => (Eff.imported app :: (trU ++ trO), .error e)
              | .ok trO => (Eff.imported app :: (trU ++ trO), .ok ())

/-! ### Lemmas about the string helpers -/

theorem startswith_one_iff (k : PyStr) (c : Char) :
    startswith k [c] = true ↔ ∃ t, k = c :: t := by
  cases k with
  | nil => simp [startswith]
  | cons a t =>
    constructor
    · intro h
      have ha : a = c := by simpa [startswith] using h
      exact ⟨t, by rw [ha]⟩
    · rintro ⟨t', ht⟩
      injection ht with h1 h2
      subst h1
      simp [startswith]

theorem endswith_in_cons (c : Char) (t : PyStr) (hc : c ≠ '_') :
    endswith (c :: t) inSuffix = endswith t inSuffix := by
  show decide ((c :: t).drop ((c :: t).length - inSuffix.length) = inSuffix)
     = decide (t.drop (t.length - inSuffix.length) = inSuffix)
  have hsl : inSuffix.length = 4 := rfl
  rcases Nat.lt_or_ge t.length 4 with h4 | h4
  · have h1 : (c :: t).length - inSuffix.length = 0 := by
      simp only [List.length_cons, hsl]; omega
    have h2 : t.length - inSuffix.length = 0 := by rw [hsl]; omega
    rw [h1, h2, List.drop_zero, List.drop_zero]
    have hL : t ≠ inSuffix := by
      intro he; rw [he, hsl] at h4; omega
    have hR : c :: t ≠ inSuffix := by
      intro he
      have hhd : c = '_' := by
        have := congrArg List.headI he
        simpa [inSuffix, str] using this
      exact hc hhd
    simp [hL, hR]
  · have h1 : (c :: t).length - inSuffix.length = (t.length - inSuffix.length) + 1 := by
      simp only [List.length_cons, hsl]; omega
    rw [h1, List.drop_succ_cons]

/-! ### Claim C1: the predicate denoted by each filter token -/

/-- C1: for every positional filter token `key=value` (with `key` the
part before the first equals sign and `value` the rest), a key without a
leading exclamation mark or tilde and not ending in `__in` yields an
equality predicate on that key and value; a key ending in `__in` yields
a multi-value predicate on the comma-split of the value; and a key
starting with an exclamation mark or tilde yields the negation of the
predicate built from the rest of the key and the value. -/
theorem c1_parseToken_cases (x k v : PyStr)
    (hx : x ≠ []) (he : hasChar '=' x = true)
    (hsplit : splitFirst '=' x = (k, v)) :
    (startswith k (str "!") = false → startswith k (str "~") = false →
        endswith k inSuffix = false →
        parseToken x = .ok (some (.q k (.s v))))
  ∧ (startswith k (str "!") = false → startswith k (str "~") = false →
        endswith k inSuffix = true →
        parseToken x = .ok (some (.q k (.list (splitAll ',' v)))))
  ∧ (startswith k (str "!") = true ∨ startswith k (str "~") = true →
        parseToken x = .ok (some (.qnot (basePred (k.drop 1) v)))) := by
  unfold parseToken
  rw [if_neg hx, if_neg (by simp [he]), hsplit]
  refine ⟨?_, ?_, ?_⟩
  · intro h1 h2 h3; simp [h1, h2, h3]
  · intro h1 h2 h3; simp [h1, h2, h3]
  · intro h
    have hcons : ∃ c t, k = c :: t ∧ c ≠ '_' ∧
        (startswith k (str "!") = true ∨ startswith k (str "~") = true) := by
      rcases h with h | h
      · obtain ⟨t, rfl⟩ := (startswith_one_iff _ '!').mp h
        exact ⟨'!', t, rfl, by decide, Or.inl h⟩
      · obtain ⟨t, rfl⟩ := (startswith_one_iff _ '~').mp h
        exact ⟨'~', t, rfl, by decide, Or.inr h⟩
    obtain ⟨c, t, rfl, hcne, hcase⟩ := hcons
    have hdrop : (c :: t).drop 1 = t := by simp
    have hends := endswith_in_cons c t hcne
    rcases hcase with hs | hs
    · simp only [hs, Bool.true_or, if_true, hdrop, basePred, hends]
      split <;> rfl
    · simp only [hs, Bool.or_true, if_true, hdrop, basePred, hends]
      split <;> rfl

/-- Witness for C1, at the token `!k__in=a,b`, exercising the negation
and multi-value clauses together. -/
theorem c1_witness :
    parseToken (str "!k__in=a,b") =
      .ok (some (.qnot (basePred ((str "!k__in").drop 1) (str "a,b")))) :=
  (c1_parseToken_cases (str "!k__in=a,b") (str "!k__in") (str "a,b")
    (by decide) (by decide) (by decide)).2.2 (Or.inl (by decide))

/-! ### Claim C10: empty filter tokens are silently skipped -/

/-- C10: `make_filter` silently skips empty tokens: for every token
list, the result (predicates, or first error) equals the result on the
same list with all empty tokens removed. -/
theorem c10_make_filter_skips_empty (args : List PyStr) :
    make_filter args = make_filter (args.filter (fun x => !x.isEmpty)) := by
  induction args with
  | nil => rfl
  | cons x xs ih =>
    by_cases hx : x = []
    · subst hx
      rw [List.filter_cons_of_neg (by simp)]
      show make_filter ([] :: xs) = make_filter (xs.filter fun x => !x.isEmpty)
      rw [← ih]
      rfl
    · have hkeep : x.isEmpty = false := by cases x with
        | nil => exact absurd rfl hx
        | cons a t => rfl
      rw [List.filter_cons_of_pos (by simp [hkeep])]
      simp only [make_filter, ih]

/-! ### The first malformed filter token (towards claim C6) -/

/-- A token `make_filter` rejects: non-empty and without an equals sign. -/
def badTok (x : PyStr) : Bool := !x.isEmpty && !hasChar '=' x

theorem parseToken_ok_of_not_bad (a : PyStr) (hb : badTok a = false) :
    ∃ p?, parseToken a = .ok p? := by
  by_cases ha : a = []
  · exact ⟨none, by simp [parseToken, ha]⟩
  · have hne : a.isEmpty = false := by cases a with
      | nil => exact absurd rfl ha
      | cons c t => rfl
    have hc : hasChar '=' a = true := by
      unfold badTok at hb
      simpa [hne] using hb
    unfold parseToken
    rw [if_neg ha, if_neg (by simp [hc])]
    dsimp only
    split <;> exact ⟨_, rfl⟩

theorem make_filter_first_bad (args : List PyStr) (x : PyStr)
    (h : args.find? badTok = some x) :
    make_filter args = .error (str "Invalid filter: " ++ x) := by
  induction args with
  | nil => simp [List.find?] at h
  | cons a as ih =>
    by_cases hb : badTok a = true
    · rw [List.find?_cons_of_pos _ hb, Option.some.injEq] at h
      subst h
      have ha : a ≠ [] := by
        intro he; rw [he] at hb; exact absurd hb (by decide)
      have hc : hasChar '=' a = false := by
        unfold badTok at hb
        rcases Bool.and_eq_true .. |>.mp hb with ⟨-, h2⟩
        simpa using h2
      simp [make_filter, parseToken, ha, hc]
    · have hb' : badTok a = false := by simpa using hb
      rw [List.find?_cons_of_neg _ (by simp [hb'])] at h
      obtain ⟨p?, hp⟩ := parseToken_ok_of_not_bad a hb'
      cases p? with
      | none => simp [make_filter, hp, ih h]
      | some p => simp [make_filter, hp, ih h]

/-! ### Claim C5: dotted attribute resolution -/

theorem getattrWalk_no_dot (obj : Obj) (acc attr : PyStr)
    (h : hasChar '.' attr = false) :
    getattrWalk obj acc attr =
      match getAttr obj (acc.reverse ++ attr) with
      | some v => .ok v
      | none => .error (attrError obj) := by
  induction attr generalizing obj acc with
  | nil => simp [getattrWalk]
  | cons c rest ih =>
    have hsplit : ¬(c = '.') ∧ hasChar '.' rest = false := by
      simpa [hasChar] using h
    rw [show getattrWalk obj acc (c :: rest) =
          getattrWalk obj (c :: acc) rest by simp [getattrWalk, hsplit.1]]
    rw [ih obj (c :: acc) hsplit.2]
    simp

theorem getattrWalk_dot (obj : Obj) (acc attr : PyStr)
    (h : hasChar '.' attr = true) :
    getattrWalk obj acc attr =
      match getAttr obj (acc.reverse ++ (splitFirst '.' attr).1) with
      | some o => getattrWalk o [] (splitFirst '.' attr).2
      | none => .error (attrError obj) := by
  induction attr generalizing obj acc with
  | nil => simp [hasChar] at h
  | cons c rest ih =>
    by_cases hc : c = '.'
    · subst hc
      simp [getattrWalk, splitFirst]
    · have h2 : hasChar '.' rest = true := by simpa [hasChar, hc] using h
      rw [show getattrWalk obj acc (c :: rest) =
            getattrWalk obj (c :: acc) rest by simp [getattrWalk, hc]]
      rw [ih obj (c :: acc) h2]
      simp [splitFirst, hc]

/-- C5: dotted attribute paths resolve recursively: a path containing a
dot is split at its first dot, the head attribute is fetched from the
current record and the tail is resolved against the result; when the
attribute is missing at a hop, the error raised lists the sorted
non-underscore attributes of the object at that hop (`attrError`), and
errors from deeper hops propagate through the recursion unchanged. -/
theorem c5_getattr_r_recursion (obj : Obj) (attr : PyStr) :
    (hasChar '.' attr = true →
       (∀ o, getAttr obj (splitFirst '.' attr).1 = some o →
          getattr_r obj attr = getattr_r o (splitFirst '.' attr).2)
     ∧ (getAttr obj (splitFirst '.' attr).1 = none →
          getattr_r obj attr = .error (attrError obj)))
  ∧ (hasChar '.' attr = false →
       getattr_r obj attr =
         match getAttr obj attr with
         | some v => .ok v
         | none => .error (attrError obj)) := by
  refine ⟨fun h => ⟨fun o ho => ?_, fun ho => ?_⟩, fun h => ?_⟩
  · unfold getattr_r
    rw [getattrWalk_dot obj [] attr h]
    simp [ho]
  · unfold getattr_r
    rw [getattrWalk_dot obj [] attr h]
    simp [ho]
  · unfold getattr_r
    rw [getattrWalk_no_dot obj [] attr h]
    simp

/-- A record with a single attribute `b`, used as the C5 witness
object. -/
def objW5 : Obj := .mk (str "w5") [(str "b", .mk (str "leaf") [])]

/-- Witness for C5: resolving `a.x` on an object without an `a`
attribute fails at the first hop with the error listing that object's
attributes. -/
theorem c5_witness : getattr_r objW5 (str "a.x") = .error (attrError objW5) :=
  ((c5_getattr_r_recursion objW5 (str "a.x")).1 rfl).2 rfl

/-! ### Event classification and section shape lemmas -/

/-- The queryset an effect uses, when it uses one. -/
def qsOf : Eff → Option QS
  | .queryEval q => some q
  | .updateCall q _ => some q
  | .renderedInline q => some q
  | .renderedFile q => some q
  | .fieldsOut q => some q
  | .imported _ => none
  | .wrote _ => none
  | .prompted => none

/-- Whether an effect is entry into the template-file rendering path. -/
def isRenderedFile : Eff → Bool
  | .renderedFile _ => true
  | _ => false

/-- Whether an effect is entry into the delimited-fields rendering path. -/
def isFieldsOut : Eff → Bool
  | .fieldsOut _ => true
  | _ => false

/-- Whether a symbolic queryset has a `.distinct()` applied somewhere
below any later `order_by`/`filter` wrappers. -/
def hasDistinct : QS → Bool
  | .objects _ => false
  | .filter q _ => hasDistinct q
  | .distinct _ => true
  | .order_by q _ => hasDistinct q

/-- The updates dict `Command.handle` builds from the update options. -/
def updDict (opts : Options) : List (PyStr × PyStr) :=
  buildDict (opts.updates.map (splitFirst '='))

theorem displayWrites_all_wrote (objs : List Obj) (updates : List (PyStr × PyStr))
    (keylen vallen : Nat) (ev : Eff)
    (h : ev ∈ displayWrites objs updates keylen vallen) : ∃ s, ev = Eff.wrote s := by
  simp only [displayWrites, List.mem_flatMap, List.mem_cons] at h
  obtain ⟨obj, -, h⟩ := h
  rcases h with rfl | h
  · exact ⟨_, rfl⟩
  · obtain ⟨key, -, h⟩ := h
    simp only [List.mem_cons, List.not_mem_nil, or_false] at h
    rcases h with rfl | rfl | rfl <;> exact ⟨_, rfl⟩

theorem updateSection_err_trace (env : Env) (opts : Options) (model : MModel)
    (qs : QS) (tr : List Eff) (e : PyStr)
    (h : updateSection env opts model qs = .error (tr, e)) :
    tr = [] ∨ tr = [Eff.queryEval qs] := by
  by_cases h0 : opts.updates = []
  · simp only [updateSection, if_pos h0] at h
    cases h
  · simp only [updateSection, if_neg h0] at h
    cases hf : opts.updates.find? (fun u => hasChar '=' u = false) with
    | some u =>
      simp only [hf] at h
      injection h with h'
      exact Or.inl (congrArg Prod.fst h').symm
    | none =>
      simp only [hf] at h
      cases hv : validateUpdates model (buildDict (opts.updates.map (splitFirst '='))) with
      | error e' =>
        simp only [hv] at h
        injection h with h'
        exact Or.inl (congrArg Prod.fst h').symm
      | ok u =>
        simp only [hv] at h
        cases hA : attrLens (env.eval qs) ((buildDict (opts.updates.map (splitFirst '='))).map Prod.fst) with
        | error e' =>
          simp only [hA] at h
          injection h with h'
          exact Or.inr (congrArg Prod.fst h').symm
        | ok lens =>
          simp only [hA] at h
          cases hM : maxNat? lens with
          | none =>
            simp only [hM] at h
            injection h with h'
            exact Or.inr (congrArg Prod.fst h').symm
          | some mx =>
            simp only [hM] at h
            by_cases hy : lowerStr env.response = str "y" <;>
              simp only [if_pos, if_neg, hy, if_true, if_false] at h <;> cases h

theorem updateSection_ok_trace (env : Env) (opts : Options) (model : MModel)
    (qs : QS) (tr : List Eff)
    (h : updateSection env opts model qs = .ok tr) :
    tr = [] ∨
    ∃ dtr, (∀ ev ∈ dtr, ∃ s, ev = Eff.wrote s) ∧
      validateUpdates model (updDict opts) = .ok () ∧
      ((lowerStr env.response = str "y" ∧
          tr = Eff.queryEval qs :: dtr ++
            [Eff.prompted, Eff.updateCall qs (updDict opts), Eff.wrote (str "Applied!")]) ∨
       (¬ lowerStr env.response = str "y" ∧
          tr = Eff.queryEval qs :: dtr ++ [Eff.prompted, Eff.wrote (str "Aborted")])) := by
  by_cases h0 : opts.updates = []
  · simp only [updateSection, if_pos h0] at h
    injection h with h'
    exact Or.inl h'.symm
  · simp only [updateSection, if_neg h0] at h
    cases hf : opts.updates.find? (fun u => hasChar '=' u = false) with
    | some u => simp only [hf] at h; cases h
    | none =>
      simp only [hf] at h
      cases hv : validateUpdates model (buildDict (opts.updates.map (splitFirst '='))) with
      | error e' => simp only [hv] at h; cases h
      | ok u =>
        simp only [hv] at h
        cases hA : attrLens (env.eval qs) ((buildDict (opts.updates.map (splitFirst '='))).map Prod.fst) with
        | error e' => simp only [hA] at h; cases h
        | ok lens =>
          simp only [hA] at h
          cases hM : maxNat? lens with
          | none => simp only [hM] at h; cases h
          | some mx =>
            simp only [hM] at h
            have hvu : validateUpdates model (updDict opts) = .ok () := by
              rw [show updDict opts = buildDict (opts.updates.map (splitFirst '=')) from rfl, hv]
            by_cases hy : lowerStr env.response = str "y"
            · rw [if_pos hy] at h
              injection h with h'
              refine Or.inr ⟨_, fun ev hev => displayWrites_all_wrote _ _ _ _ ev hev,
                hvu, Or.inl ⟨hy, h'.symm⟩⟩
            · rw [if_neg hy] at h
              injection h with h'
              refine Or.inr ⟨_, fun ev hev => displayWrites_all_wrote _ _ _ _ ev hev,
                hvu, Or.inr ⟨hy, h'.symm⟩⟩

theorem inlinePart_err_trace (env : Env) (opts : Options) (qs : QS)
    (tr : List Eff) (e : PyStr)
    (h : inlineTemplatePart env opts qs = .error (tr, e)) : tr = [] := by
  by_cases h0 : opts.template = []
  · simp only [inlineTemplatePart, if_pos h0] at h
    cases h
  · simp only [inlineTemplatePart, if_neg h0] at h
    cases hE : env.tmplErr opts.template with
    | some e' =>
      simp only [hE] at h
      injection h with h'
      exact (congrArg Prod.fst h').symm
    | none => simp only [hE] at h; cases h

theorem inlinePart_ok_trace (env : Env) (opts : Options) (qs : QS) (tr : List Eff)
    (h : inlineTemplatePart env opts qs = .ok tr) :
    tr = [] ∨ tr = [Eff.renderedInline qs, Eff.wrote (env.render opts.template qs)] := by
  by_cases h0 : opts.template = []
  · simp only [inlineTemplatePart, if_pos h0] at h
    injection h with h'
    exact Or.inl h'.symm
  · simp only [inlineTemplatePart, if_neg h0] at h
    cases hE : env.tmplErr opts.template with
    | some e' => simp only [hE] at h; cases h
    | none =>
      simp only [hE] at h
      injection h with h'
      exact Or.inr h'.symm

theorem filePart_err_trace (env : Env) (opts : Options) (qs : QS)
    (tr : List Eff) (e : PyStr)
    (h : filePart env opts qs = .error (tr, e)) :
    tr = [] ∨
    (optTruthy opts.template_file = false ∧ tr = [Eff.fieldsOut qs, Eff.queryEval qs]) := by
  by_cases h0 : optTruthy opts.template_file = true
  · simp only [filePart, if_pos h0] at h
    by_cases h1 : optVal opts.template_file = str "-"
    · rw [if_pos h1] at h
      cases hE : env.tmplErr env.stdinText with
      | some e' =>
        simp only [hE] at h
        injection h with h'
        exact Or.inl (congrArg Prod.fst h').symm
      | none => simp only [hE] at h; cases h
    · rw [if_neg h1] at h
      by_cases h2 : env.fileExists (optVal opts.template_file) = true
      · rw [if_pos h2] at h
        cases hE : env.tmplErr (env.fileContents (optVal opts.template_file)) with
        | some e' =>
          simp only [hE] at h
          injection h with h'
          exact Or.inl (congrArg Prod.fst h').symm
        | none => simp only [hE] at h; cases h
      · rw [if_neg h2] at h
        cases hL : env.loadTemplate (optVal opts.template_file) with
        | error le =>
          cases le with
          | notFound =>
            simp only [hL] at h
            injection h with h'
            exact Or.inl (congrArg Prod.fst h').symm
          | syn e' =>
            simp only [hL] at h
            injection h with h'
            exact Or.inl (congrArg Prod.fst h').symm
        | ok src => simp only [hL] at h; cases h
  · have h0' : optTruthy opts.template_file = false := by simpa using h0
    simp only [filePart, h0', if_false, Bool.false_eq_true] at h
    by_cases h1 : optTruthy opts.fields = true
    · rw [if_pos h1] at h
      cases hF : fieldLines (env.eval qs) (splitAll ',' (optVal opts.fields)) opts.separator with
      | error e' =>
        simp only [hF] at h
        injection h with h'
        exact Or.inr ⟨h0', (congrArg Prod.fst h').symm⟩
      | ok lines => simp only [hF] at h; cases h
    · rw [if_neg h1] at h
      cases h

theorem filePart_ok_trace (env : Env) (opts : Options) (qs : QS) (tr : List Eff)
    (h : filePart env opts qs = .ok tr) :
    tr = [] ∨
    (optTruthy opts.template_file = true ∧ ∃ s, tr = [Eff.renderedFile qs, Eff.wrote s]) ∨
    (optTruthy opts.template_file = false ∧
       ∃ lines, tr = Eff.fieldsOut qs :: Eff.queryEval qs :: List.map Eff.wrote lines) := by
  by_cases h0 : optTruthy opts.template_file = true
  · simp only [filePart, if_pos h0] at h
    by_cases h1 : optVal opts.template_file = str "-"
    · rw [if_pos h1] at h
      cases hE : env.tmplErr env.stdinText with
      | some e' => simp only [hE] at h; cases h
      | none =>
        simp only [hE] at h
        injection h with h'
        exact Or.inr (Or.inl ⟨h0, _, h'.symm⟩)
    · rw [if_neg h1] at h
      by_cases h2 : env.fileExists (optVal opts.template_file) = true
      · rw [if_pos h2] at h
        cases hE : env.tmplErr (env.fileContents (optVal opts.template_file)) with
        | some e' => simp only [hE] at h; cases h
        | none =>
          simp only [hE] at h
          injection h with h'
          exact Or.inr (Or.inl ⟨h0, _, h'.symm⟩)
      · rw [if_neg h2] at h
        cases hL : env.loadTemplate (optVal opts.template_file) with
        | error le => cases le <;> simp only [hL] at h <;> cases h
        | ok src =>
          simp only [hL] at h
          injection h with h'
          exact Or.inr (Or.inl ⟨h0, _, h'.symm⟩)
  · have h0' : optTruthy opts.template_file = false := by simpa using h0
    simp only [filePart, h0', if_false, Bool.false_eq_true] at h
    by_cases h1 : optTruthy opts.fields = true
    · rw [if_pos h1] at h
      cases hF : fieldLines (env.eval qs) (splitAll ',' (optVal opts.fields)) opts.separator with
      | error e' => simp only [hF] at h; cases h
      | ok lines =>
        simp only [hF] at h
        injection h with h'
        exact Or.inr (Or.inr ⟨h0', lines, h'.symm⟩)
    · rw [if_neg h1] at h
      injection h with h'
      exact Or.inl h'.symm

theorem outputSection_trace (env : Env) (opts : Options) (qs : QS) (tr : List Eff)
    (h : outputSection env opts qs = .ok tr ∨
         ∃ e, outputSection env opts qs = .error (tr, e)) :
    ∃ trI trF, tr = trI ++ trF ∧
      (trI = [] ∨ trI = [Eff.renderedInline qs, Eff.wrote (env.render opts.template qs)]) ∧
      (trF = [] ∨
       (optTruthy opts.template_file = true ∧ ∃ s, trF = [Eff.renderedFile qs, Eff.wrote s]) ∨
       (optTruthy opts.template_file = false ∧
          ∃ lines, trF = Eff.fieldsOut qs :: Eff.queryEval qs :: List.map Eff.wrote lines)) := by
  cases hI : inlineTemplatePart env opts qs with
  | error pe =>
    obtain ⟨trI0, e0⟩ := pe
    have htrI := inlinePart_err_trace env opts qs trI0 e0 hI
    rcases h with h | ⟨e, h⟩
    · simp only [outputSection, hI] at h; cases h
    · simp only [outputSection, hI] at h
      injection h with h'
      refine ⟨[], [], ?_, Or.inl rfl, Or.inl rfl⟩
      have : trI0 = tr := congrArg Prod.fst h'
      rw [← this, htrI]
      rfl
  | ok trI =>
    cases hF : filePart env opts qs with
    | error pe =>
      obtain ⟨trF0, e0⟩ := pe
      have htrF := filePart_err_trace env opts qs trF0 e0 hF
      rcases h with h | ⟨e, h⟩
      · simp only [outputSection, hI, hF] at h; cases h
      · simp only [outputSection, hI, hF] at h
        injection h with h'
        have htr : trI ++ trF0 = tr := congrArg Prod.fst h'
        refine ⟨trI, trF0, htr.symm, inlinePart_ok_trace env opts qs trI hI, ?_⟩
        rcases htrF with rfl | ⟨hw, rfl⟩
        · exact Or.inl rfl
        · exact Or.inr (Or.inr ⟨hw, [], rfl⟩)
    | ok trF =>
      rcases h with h | ⟨e, h⟩
      · simp only [outputSection, hI, hF] at h
        injection h with h'
        refine ⟨trI, trF, h'.symm, inlinePart_ok_trace env opts qs trI hI, ?_⟩
        rcases filePart_ok_trace env opts qs trF hF with rfl | hrest
        · exact Or.inl rfl
        · exact Or.inr hrest
      · simp only [outputSection, hI, hF] at h; cases h

theorem outputSection_events (env : Env) (opts : Options) (qs : QS) (tr : List Eff)
    (h : outputSection env opts qs = .ok tr ∨
         ∃ e, outputSection env opts qs = .error (tr, e))
    (ev : Eff) (hev : ev ∈ tr) :
    (∀ q, qsOf ev = some q → q = qs) ∧ ev ≠ Eff.prompted ∧
      ∀ q u, ev ≠ Eff.updateCall q u := by
  obtain ⟨trI, trF, rfl, hI, hF⟩ := outputSection_trace env opts qs _ h
  rcases List.mem_append.mp hev with hm | hm
  · rcases hI with rfl | rfl
    · cases hm
    · simp only [List.mem_cons, List.not_mem_nil, or_false] at hm
      rcases hm with rfl | rfl
      · exact ⟨fun q hq => by simp [qsOf] at hq; exact hq.symm, by nofun, fun q u => by nofun⟩
      · exact ⟨fun q hq => by simp [qsOf] at hq, by nofun, fun q u => by nofun⟩
  · rcases hF with rfl | ⟨-, s, rfl⟩ | ⟨-, lines, rfl⟩
    · cases hm
    · simp only [List.mem_cons, List.not_mem_nil, or_false] at hm
      rcases hm with rfl | rfl
      · exact ⟨fun q hq => by simp [qsOf] at hq; exact hq.symm, by nofun, fun q u => by nofun⟩
      · exact ⟨fun q hq => by simp [qsOf] at hq, by nofun, fun q u => by nofun⟩
    · simp only [List.mem_cons] at hm
      rcases hm with rfl | rfl | hm
      · exact ⟨fun q hq => by simp [qsOf] at hq; exact hq.symm, by nofun, fun q u => by nofun⟩
      · exact ⟨fun q hq => by simp [qsOf] at hq; exact hq.symm, by nofun, fun q u => by nofun⟩
      · obtain ⟨l, -, rfl⟩ := List.mem_map.mp hm
        exact ⟨fun q hq => by simp [qsOf] at hq, by nofun, fun q u => by nofun⟩

theorem outputSection_excl (env : Env) (opts : Options) (qs : QS) (tr : List Eff)
    (h : outputSection env opts qs = .ok tr ∨
         ∃ e, outputSection env opts qs = .error (tr, e)) :
    (tr.any isRenderedFile && tr.any isFieldsOut) = false := by
  obtain ⟨trI, trF, rfl, hI, hF⟩ := outputSection_trace env opts qs _ h
  have hIrf : trI.any isRenderedFile = false := by
    rcases hI with rfl | rfl <;> simp [isRenderedFile]
  have hIfo : trI.any isFieldsOut = false := by
    rcases hI with rfl | rfl <;> simp [isFieldsOut]
  rcases hF with rfl | ⟨-, s, rfl⟩ | ⟨-, lines, rfl⟩
  · simp [List.any_append, hIrf, hIfo]
  · simp [List.any_append, hIrf, hIfo, isFieldsOut]
  · have hmap : (List.map Eff.wrote lines).any isRenderedFile = false := by
      simp [List.any_map, Function.comp, isRenderedFile]
    simp [List.any_append, hIrf, hIfo, isRenderedFile, hmap]

theorem updateSection_events (env : Env) (opts : Options) (model : MModel)
    (qs : QS) (tr : List Eff)
    (h : updateSection env opts model qs = .ok tr ∨
         ∃ e, updateSection env opts model qs = .error (tr, e))
    (ev : Eff) (hev : ev ∈ tr) :
    (∀ q, qsOf ev = some q → q = qs) ∧ isRenderedFile ev = false ∧
      isFieldsOut ev = false := by
  rcases h with h | ⟨e, h⟩
  · rcases updateSection_ok_trace env opts model qs tr h with rfl | ⟨dtr, hdtr, -, hcase⟩
    · cases hev
    · have hdisp : ∀ ev ∈ dtr, (∀ q, qsOf ev = some q → q = qs) ∧
          isRenderedFile ev = false ∧ isFieldsOut ev = false := by
        intro ev hm
        obtain ⟨s, rfl⟩ := hdtr ev hm
        exact ⟨fun q hq => by simp [qsOf] at hq, rfl, rfl⟩
      rcases hcase with ⟨-, rfl⟩ | ⟨-, rfl⟩ <;>
        · simp only [List.mem_cons, List.mem_append, List.not_mem_nil, or_false] at hev
          rcases hev with (rfl | hm) | hrest
          · exact ⟨fun q hq => by simp [qsOf] at hq; exact hq.symm, rfl, rfl⟩
          · exact hdisp ev hm
          · first
              | (rcases hrest with rfl | rfl | rfl
                 · exact ⟨fun q hq => by simp [qsOf] at hq, rfl, rfl⟩
                 · exact ⟨fun q hq => by simp [qsOf] at hq; exact hq.symm, rfl, rfl⟩
                 · exact ⟨fun q hq => by simp [qsOf] at hq, rfl, rfl⟩)
              | (rcases hrest with rfl | rfl
                 · exact ⟨fun q hq => by simp [qsOf] at hq, rfl, rfl⟩
                 · exact ⟨fun q hq => by simp [qsOf] at hq, rfl, rfl⟩)
  · rcases updateSection_err_trace env opts model qs tr e h with rfl | rfl
    · cases hev
    · simp only [List.mem_cons, List.not_mem_nil, or_false] at hev
      subst hev
      exact ⟨fun q hq => by simp [qsOf] at hq; exact hq.symm, rfl, rfl⟩

/-- Exhaustive characterization of the trace of `handle`: either an
early termination (empty trace, import-only trace, or the list-fields
write), or the main path, where the trace is the import event followed
by the update-section trace and, when that section succeeded, the
output-section trace. -/
theorem handle_shape (env : Env) (opts : Options) (args : List PyStr) :
    (handle env opts args).1 = [] ∨
    (∃ a, (handle env opts args).1 = [Eff.imported a]) ∨
    (∃ a s, (handle env opts args).1 = [Eff.imported a, Eff.wrote s]) ∨
    (∃ a model qargs,
       resolveModel env opts = .ok (a, model) ∧
       make_filter args = .ok qargs ∧
       env.fieldErr qargs = none ∧
       opts.list_fields = false ∧
       ((∃ trU e,
           updateSection env opts model (mkQS opts model.name qargs) = .error (trU, e) ∧
           (handle env opts args).1 = Eff.imported a :: trU ∧
           (handle env opts args).2 = .error e) ∨
        (∃ trU trO,
           updateSection env opts model (mkQS opts model.name qargs) = .ok trU ∧
           (outputSection env opts (mkQS opts model.name qargs) = .ok trO ∨
            ∃ e, outputSection env opts (mkQS opts model.name qargs) = .error (trO, e)) ∧
           (handle env opts args).1 = Eff.imported a :: (trU ++ trO)))) := by
  cases hQ : requireOpts opts with
  | some e => left; simp [handle, hQ]
  | none =>
    cases hR : resolveModel env opts with
    | error err =>
      cases err with
      | early e => left; simp [handle, hQ, hR]
      | late a e => right; left; exact ⟨a, by simp [handle, hQ, hR]⟩
    | ok pm =>
      obtain ⟨a, model⟩ := pm
      by_cases hlf : opts.list_fields = true
      · right; right; left
        exact ⟨a, listFieldsMsg a (optVal opts.model) model,
          by simp [handle, hQ, hR, hlf]⟩
      · have hlf' : opts.list_fields = false := by simpa using hlf
        cases hmf : make_filter args with
        | error e =>
          right; left
          exact ⟨a, by simp [handle, hQ, hR, hlf', hmf]⟩
        | ok qargs =>
          cases hfe : env.fieldErr qargs with
          | some e =>
            right; left
            exact ⟨a, by simp [handle, hQ, hR, hlf', hmf, hfe]⟩
          | none =>
            cases hU : updateSection env opts model (mkQS opts model.name qargs) with
            | error pe =>
              obtain ⟨trU, e⟩ := pe
              right; right; right
              exact ⟨a, model, qargs, rfl, rfl, hfe, hlf',
                Or.inl ⟨trU, e, hU,
                  by simp [handle, hQ, hR, hlf', hmf, hfe, hU],
                  by simp [handle, hQ, hR, hlf', hmf, hfe, hU]⟩⟩
            | ok trU =>
              cases hO : outputSection env opts (mkQS opts model.name qargs) with
              | error pe =>
                obtain ⟨trO, e⟩ := pe
                right; right; right
                exact ⟨a, model, qargs, rfl, rfl, hfe, hlf',
                  Or.inr ⟨trU, trO, hU, Or.inr ⟨e, hO⟩,
                    by simp [handle, hQ, hR, hlf', hmf, hfe, hU, hO]⟩⟩
              | ok trO =>
                right; right; right
                exact ⟨a, model, qargs, rfl, rfl, hfe, hlf',
                  Or.inr ⟨trU, trO, hU, Or.inl hO,
                    by simp [handle, hQ, hR, hlf', hmf, hfe, hU, hO]⟩⟩

theorem any_false_of_all {α : Type} (l : List α) (p : α → Bool)
    (h : ∀ x ∈ l, p x = false) : l.any p = false := by
  induction l with
  | nil => rfl
  | cons a t ih =>
    rw [List.any_cons, h a (List.mem_cons_self a t),
      ih (fun x hx => h x (List.mem_cons_of_mem a hx))]
    rfl

/-- Whether a handle result is an error (a raised, terminal Python
exception). -/
def exceptErrored : Except PyStr Unit → Bool
  | .error _ => true
  | .ok _ => false

/-! ### Claim C7: missing required flags -/

/-- C7: when the application name is missing, the model name is missing,
or none of field list, inline template, template file and updates is
given, `handle` fails with a terminal error before importing any
application module, resolving any model, or executing any query: the
effect trace is empty. -/
theorem c7_missing_required (env : Env) (opts : Options) (args : List PyStr)
    (h : optTruthy opts.application = false ∨ optTruthy opts.model = false ∨
         (optTruthy opts.fields = false ∧ opts.template = [] ∧
          optTruthy opts.template_file = false ∧ opts.updates = [])) :
    (handle env opts args).1 = [] ∧ ∃ e, (handle env opts args).2 = .error e := by
  have hx : ∃ e, requireOpts opts = some e := by
    unfold requireOpts
    rcases h with h | h | ⟨h1, h2, h3, h4⟩
    · rw [if_pos h]; exact ⟨_, rfl⟩
    · by_cases h0 : optTruthy opts.application = false
      · rw [if_pos h0]; exact ⟨_, rfl⟩
      · rw [if_neg h0, if_pos h]; exact ⟨_, rfl⟩
    · by_cases h0 : optTruthy opts.application = false
      · rw [if_pos h0]; exact ⟨_, rfl⟩
      · rw [if_neg h0]
        by_cases hm : optTruthy opts.model = false
        · rw [if_pos hm]; exact ⟨_, rfl⟩
        · rw [if_neg hm, if_pos (by simp [h1, h2, h3, h4])]; exact ⟨_, rfl⟩
  obtain ⟨e, he⟩ := hx
  exact ⟨by simp [handle, he], e, by simp [handle, he]⟩

/-! ### Claim C8: unknown application or model -/

/-- C8: naming an application outside `INSTALLED_APPS`, or a model the
named application does not define, makes `handle` fail with a terminal
error while never evaluating a query and never invoking the bulk
update. -/
theorem c8_unknown_app_or_model (env : Env) (opts : Options) (args : List PyStr)
    (a mn : PyStr)
    (happ : opts.application = some a) (hmn : opts.model = some mn)
    (h : elemStr env.installed a = false ∨
         (∃ mods, lookupA env.apps a = some mods ∧
            elemStr (sortStrs (mods.map MModel.name)) mn = false)) :
    (∃ e, (handle env opts args).2 = .error e) ∧
    (∀ q, Eff.queryEval q ∉ (handle env opts args).1) ∧
    (∀ q u, Eff.updateCall q u ∉ (handle env opts args).1) := by
  have hva : optVal opts.application = a := by rw [happ]; rfl
  have hvm : optVal opts.model = mn := by rw [hmn]; rfl
  cases hQ : requireOpts opts with
  | some e =>
    refine ⟨⟨e, by simp [handle, hQ]⟩, ?_, ?_⟩ <;> simp [handle, hQ]
  | none =>
    have hres : ∃ er, resolveModel env opts = .error er := by
      cases hR : resolveModel env opts with
      | error er => exact ⟨er, rfl⟩
      | ok pm =>
        exfalso
        unfold resolveModel at hR
        rw [hva] at hR
        rcases h with h | ⟨mods, hmods, hmn'⟩
        · rw [if_pos h] at hR; cases hR
        · by_cases hin : elemStr env.installed a = false
          · rw [if_pos hin] at hR; cases hR
          · rw [if_neg hin] at hR
            simp only [hmods, hvm, if_pos hmn'] at hR
            cases hR
    obtain ⟨er, her⟩ := hres
    cases er with
    | early e =>
      refine ⟨⟨e, by simp [handle, hQ, her]⟩, ?_, ?_⟩ <;> simp [handle, hQ, her]
    | late a' e =>
      refine ⟨⟨e, by simp [handle, hQ, her]⟩, ?_, ?_⟩ <;> simp [handle, hQ, her]

/-! ### Claim C9: distinct is applied before every use of the queryset -/

/-- C9: every queryset a trace event of `handle` uses (query evaluation,
bulk update, template rendering, field output) has duplicate elimination
applied: structurally, a `.distinct()` sits below any `order_by`. -/
theorem c9_distinct_before_use (env : Env) (opts : Options) (args : List PyStr) :
    ∀ ev ∈ (handle env opts args).1, ∀ q, qsOf ev = some q →
      hasDistinct q = true := by
  intro ev hev q hq
  have hqs : ∀ (mname : PyStr) (qargs : List QPred),
      hasDistinct (mkQS opts mname qargs) = true := by
    intro mname qargs
    unfold mkQS
    split <;> simp [hasDistinct]
  rcases handle_shape env opts args with hsh | ⟨a, hsh⟩ | ⟨a, s, hsh⟩ |
    ⟨a, model, qargs, -, -, -, -, hmain⟩
  · rw [hsh] at hev; cases hev
  · rw [hsh] at hev
    simp only [List.mem_cons, List.not_mem_nil, or_false] at hev
    subst hev; simp [qsOf] at hq
  · rw [hsh] at hev
    simp only [List.mem_cons, List.not_mem_nil, or_false] at hev
    rcases hev with rfl | rfl <;> simp [qsOf] at hq
  · rcases hmain with ⟨trU, e, hU, htr, -⟩ | ⟨trU, trO, hU, hO, htr⟩
    · rw [htr] at hev
      rcases List.mem_cons.mp hev with rfl | hm
      · simp [qsOf] at hq
      · have hprop := updateSection_events env opts model _ trU (Or.inr ⟨e, hU⟩) ev hm
        rw [hprop.1 q hq]
        exact hqs _ _
    · rw [htr] at hev
      rcases List.mem_cons.mp hev with rfl | hm
      · simp [qsOf] at hq
      · rcases List.mem_append.mp hm with hm | hm
        · have hprop := updateSection_events env opts model _ trU (Or.inl hU) ev hm
          rw [hprop.1 q hq]
          exact hqs _ _
        · have hprop := outputSection_events env opts _ trO hO ev hm
          rw [hprop.1 q hq]
          exact hqs _ _

/-! ### Claim C4: exclusivity of the rendering paths -/

/-- Amended C4: the template-file rendering path and the delimited-fields
rendering path are mutually exclusive in every invocation; the
inline-template path, however, is a separate statement in the source and
can execute in the same invocation as either of them (see the
counterexample). -/
theorem c4_amended_file_fields_exclusive (env : Env) (opts : Options)
    (args : List PyStr) :
    ((handle env opts args).1.any isRenderedFile &&
     (handle env opts args).1.any isFieldsOut) = false := by
  rcases handle_shape env opts args with hsh | ⟨a, hsh⟩ | ⟨a, s, hsh⟩ |
    ⟨a, model, qargs, -, -, -, -, hmain⟩
  · rw [hsh]; rfl
  · rw [hsh]; rfl
  · rw [hsh]; rfl
  · rcases hmain with ⟨trU, e, hU, htr, -⟩ | ⟨trU, trO, hU, hO, htr⟩
    · rw [htr]
      have hUe := fun ev hm =>
        (updateSection_events env opts model _ trU (Or.inr ⟨e, hU⟩) ev hm).2
      have h1 : trU.any isRenderedFile = false :=
        any_false_of_all trU _ (fun ev hm => (hUe ev hm).1)
      rw [List.any_cons, h1]
      rfl
    · rw [htr]
      have hUe := fun ev hm =>
        (updateSection_events env opts model _ trU (Or.inl hU) ev hm).2
      have hU1 : trU.any isRenderedFile = false :=
        any_false_of_all trU _ (fun ev hm => (hUe ev hm).1)
      have hU2 : trU.any isFieldsOut = false :=
        any_false_of_all trU _ (fun ev hm => (hUe ev hm).2)
      have hOexcl := outputSection_excl env opts _ trO hO
      rw [List.any_cons, List.any_cons, List.any_append, List.any_append,
        hU1, hU2]
      show ((false || (false || trO.any isRenderedFile)) &&
            (false || (false || trO.any isFieldsOut))) = false
      rw [Bool.false_or, Bool.false_or, Bool.false_or, Bool.false_or]
      exact hOexcl

/-! ### Claim C2: the confirmation response gates the bulk update -/

/-- C2: whenever the confirmation prompt was shown, a response whose
lowercase form is not `y` means the bulk update is never invoked (no
`updateCall` effect occurs, so zero records change) and `Aborted` is
written; the update is invoked exactly when the response lowercases to
`y`, in which case `Applied!` is written. -/
theorem c2_confirmation_gates_update (env : Env) (opts : Options) (args : List PyStr)
    (h : Eff.prompted ∈ (handle env opts args).1) :
    (¬ lowerStr env.response = str "y" →
       (∀ q u, Eff.updateCall q u ∉ (handle env opts args).1) ∧
       Eff.wrote (str "Aborted") ∈ (handle env opts args).1) ∧
    (lowerStr env.response = str "y" →
       (∃ q u, Eff.updateCall q u ∈ (handle env opts args).1) ∧
       Eff.wrote (str "Applied!") ∈ (handle env opts args).1) := by
  rcases handle_shape env opts args with hsh | ⟨a, hsh⟩ | ⟨a, s, hsh⟩ |
    ⟨a, model, qargs, -, -, -, -, hmain⟩
  · rw [hsh] at h; cases h
  · rw [hsh] at h
    simp only [List.mem_cons, List.not_mem_nil, or_false] at h
    cases h
  · rw [hsh] at h
    simp only [List.mem_cons, List.not_mem_nil, or_false] at h
    rcases h with h | h <;> cases h
  · rcases hmain with ⟨trU, e, hU, htr, -⟩ | ⟨trU, trO, hU, hO, htr⟩
    · rw [htr] at h
      rcases List.mem_cons.mp h with heq | hm
      · cases heq
      · rcases updateSection_err_trace env opts model _ trU e hU with rfl | rfl
        · cases hm
        · simp only [List.mem_cons, List.not_mem_nil, or_false] at hm
          cases hm
    · rw [htr] at h
      rcases List.mem_cons.mp h with heq | hm
      · cases heq
      rcases List.mem_append.mp hm with hmU | hmO
      case inr =>
        exact absurd rfl ((outputSection_events env opts _ trO hO Eff.prompted hmO).2.1)
      rcases updateSection_ok_trace env opts model _ trU hU with rfl | ⟨dtr, hdtr, -, hcase⟩
      · cases hmU
      constructor
      · intro hy
        rcases hcase with ⟨hy', -⟩ | ⟨-, htrU⟩
        · exact absurd hy' hy
        refine ⟨?_, ?_⟩
        · intro q u hin
          rw [htr] at hin
          rcases List.mem_cons.mp hin with heq | hin
          · cases heq
          rcases List.mem_append.mp hin with hin | hin
          · rw [htrU] at hin
            rcases List.mem_cons.mp hin with heq | hin
            · cases heq
            rcases List.mem_append.mp hin with hin | hin
            · obtain ⟨s', hs'⟩ := hdtr _ hin; cases hs'
            · simp only [List.mem_cons, List.not_mem_nil, or_false] at hin
              rcases hin with heq | heq <;> cases heq
          · exact (outputSection_events env opts _ trO hO _ hin).2.2 q u rfl
        · rw [htr, htrU]
          simp [List.mem_cons, List.mem_append]
      · intro hy
        rcases hcase with ⟨-, htrU⟩ | ⟨hy', -⟩
        · refine ⟨⟨mkQS opts model.name qargs, updDict opts, ?_⟩, ?_⟩ <;>
            · rw [htr, htrU]
              simp [List.mem_cons, List.mem_append]
        · exact absurd hy hy'

/-! ### Claim C3: update validation precedes any mutation -/

/-- C3: update keys are validated against the known field map, the
direct-field name set, and the enumerated choice values (the
`validateUpdates` loop, run before any record preview, prompt or
update); when validation fails, `handle` terminates with exactly that
error and the bulk update is never invoked on any record. -/
theorem c3_update_validation (env : Env) (opts : Options) (args : List PyStr)
    (a : PyStr) (model : MModel) (qargs : List QPred) (e : PyStr)
    (hreq : requireOpts opts = none)
    (hres : resolveModel env opts = .ok (a, model))
    (hlf : opts.list_fields = false)
    (hmf : make_filter args = .ok qargs)
    (hfe : env.fieldErr qargs = none)
    (hup : ¬ opts.updates = [])
    (heqs : opts.updates.find? (fun u => hasChar '=' u = false) = none)
    (hval : validateUpdates model (updDict opts) = .error e) :
    (handle env opts args).2 = .error e ∧
    ∀ q u, Eff.updateCall q u ∉ (handle env opts args).1 := by
  have hval' : validateUpdates model (buildDict (opts.updates.map (splitFirst '='))) =
      .error e := hval
  have hU : updateSection env opts model (mkQS opts model.name qargs) =
      .error ([], e) := by
    simp only [updateSection, if_neg hup, heqs, hval']
  constructor
  · simp [handle, hreq, hres, hlf, hmf, hfe, hU]
  · intro q u hin
    simp [handle, hreq, hres, hlf, hmf, hfe, hU] at hin

/-! ### Claim C6: tokens without an equals sign are rejected -/

/-- C6: a non-empty positional filter token without an equals sign makes
`handle` terminate with `Invalid filter: <token>` (naming the first such
token), and an update token without an equals sign makes it terminate
with `Invalid update statement: <token>`; in both cases the trace shows
that no query was evaluated and no update invoked (only the
application module load happened). -/
theorem c6_tokens_without_equals (env : Env) (opts : Options) (args : List PyStr)
    (a : PyStr) (model : MModel)
    (hreq : requireOpts opts = none)
    (hres : resolveModel env opts = .ok (a, model))
    (hlf : opts.list_fields = false) :
    (∀ x, args.find? badTok = some x →
       (handle env opts args).1 = [Eff.imported a] ∧
       (handle env opts args).2 = .error (str "Invalid filter: " ++ x)) ∧
    (∀ u qargs, make_filter args = .ok qargs → env.fieldErr qargs = none →
       opts.updates.find? (fun t => hasChar '=' t = false) = some u →
       (handle env opts args).1 = [Eff.imported a] ∧
       (handle env opts args).2 = .error (str "Invalid update statement: " ++ u)) := by
  constructor
  · intro x hx
    have hmf := make_filter_first_bad args x hx
    constructor <;> simp [handle, hreq, hres, hlf, hmf]
  · intro u qargs hmf hfe hfind
    have hup : ¬ opts.updates = [] := by
      intro h0
      rw [h0] at hfind
      simp [List.find?] at hfind
    have hU : updateSection env opts model (mkQS opts model.name qargs) =
        .error ([], str "Invalid update statement: " ++ u) := by
      simp only [updateSection, if_neg hup, hfind]
    constructor <;> simp [handle, hreq, hres, hlf, hmf, hfe, hU]

/-! ### Concrete environments for counterexamples and witnesses -/

/-- A one-field model `M` with direct field `f` and no enumerated
choices. -/
def modelM : MModel where
  name := str "M"
  allFieldNames := [str "f"]
  directNames := [str "f"]
  fieldsByName := [(str "f", [])]

/-- A single record with attribute `f`. -/
def recA : Obj := .mk (str "rec1") [(str "f", .mk (str "v0") [])]

/-- A small healthy environment: one installed, importable application
`app` defining model `M` with one record; the user answers `n` at the
prompt; templates are syntactically fine and render to `R`. -/
def envC : Env where
  installed := [str "app"]
  apps := [(str "app", [modelM])]
  fieldErr := fun _ => none
  eval := fun _ => [recA]
  response := str "n"
  tmplErr := fun _ => none
  stdinText := []
  fileExists := fun _ => false
  fileContents := fun _ => []
  loadTemplate := fun _ => .error .notFound
  render := fun _ _ => str "R"

/-- Options naming `app.M`, with everything else at its default. -/
def baseOpts : Options where
  application := some (str "app")
  model := some (str "M")
  fields := none
  list_fields := false
  order := none
  separator := str ","
  template := []
  template_file := none
  updates := []

/-- Both an inline template and a field list. -/
def optsC4 : Options := { baseOpts with fields := some (str "f"), template := str "x" }

/-- One well-formed update assignment. -/
def optsC2 : Options := { baseOpts with updates := [str "f=v1"] }

/-- An update assignment naming an unknown field. -/
def optsC3 : Options := { baseOpts with updates := [str "nofield=v"] }

/-- A field list only. -/
def optsC6 : Options := { baseOpts with fields := some (str "f") }

/-- No application option. -/
def optsC7 : Options := { baseOpts with application := none }

/-- An application outside the registry. -/
def optsC8 : Options := { baseOpts with application := some (str "nope"), fields := some (str "f") }

/-- The queryset `handle` builds for `app.M` with no filters. -/
def qsC : QS := QS.distinct (QS.filter (QS.objects (str "M")) [])

/-- Counterexample to C4 as stated: invoked with both an inline template
and a field list, `handle` executes the template rendering path and the
delimited-fields path in the same invocation — the two paths are not
mutually exclusive. -/
theorem c4_counterexample :
    Eff.renderedInline qsC ∈ (handle envC optsC4 []).1 ∧
    Eff.fieldsOut qsC ∈ (handle envC optsC4 []).1 := by decide

/-! ### Witnesses -/

/-- Witness for C2: with one record, one update and response `n`, the
prompt is reached and `Aborted` is written. -/
theorem c2_witness : Eff.wrote (str "Aborted") ∈ (handle envC optsC2 []).1 :=
  ((c2_confirmation_gates_update envC optsC2 [] (by decide)).1 (by decide)).2

/-- Witness for C3: an update key unknown to the model makes `handle`
terminate with the validation error naming the known fields. -/
theorem c3_witness : (handle envC optsC3 []).2 =
    .error (str "M has no field named nofield. Choices are: f") :=
  (c3_update_validation envC optsC3 [] (str "app") modelM []
    (str "M has no field named nofield. Choices are: f")
    rfl rfl rfl rfl rfl (by decide) rfl rfl).1

/-- Witness for C6: the filter token `bad` is rejected by name. -/
theorem c6_witness :
    (handle envC optsC6 [str "bad"]).2 = .error (str "Invalid filter: " ++ str "bad") :=
  ((c6_tokens_without_equals envC optsC6 [str "bad"] (str "app") modelM
    rfl rfl rfl).1 (str "bad") (by decide)).2

/-- Witness for C7: with no application option the trace is empty. -/
theorem c7_witness : (handle envC optsC7 []).1 = [] :=
  (c7_missing_required envC optsC7 [] (Or.inl (by decide))).1

/-- Witness for C8: an application outside the registry yields a
terminal error. -/
theorem c8_witness : exceptErrored (handle envC optsC8 []).2 = true := by
  obtain ⟨e, he⟩ := (c8_unknown_app_or_model envC optsC8 [] (str "nope") (str "M")
    rfl rfl (Or.inl (by decide))).1
  rw [he]
  rfl

/-- Witness for C9: the queryset used by the delimited-fields output of
a concrete run has distinct applied. -/
theorem c9_witness : hasDistinct qsC = true :=
  c9_distinct_before_use envC optsC6 [] (Eff.fieldsOut qsC) (by decide) qsC (by decide)

end CliQuery
